import Mathlib

/-!
Verification development for the `panics` Go library (package `panics`,
files `panics.go` and `settings.go`).

The model is a shallow embedding.  Go strings are modelled as `List Char`
(all relevant operations are byte-transparent for the ASCII text the
library manipulates; slicing at the first `'('` is rune-boundary safe even
for non-ASCII input, so the character-level model is faithful).  Go slice
indexing is fallible: an out-of-range access is a runtime panic, which the
embedding models by returning `none`.  The stack-walking loop of
`findPanics` advances its index by at least one per iteration, so it is
embedded with a fuel parameter initialised to the number of lines; fuel
exhaustion cannot occur on the initial call (the accompanying lemmas never
rely on the fuel-exhaustion branch).
-/

namespace Panics

/-- Go strings, modelled as lists of characters. -/
abbrev Str := List Char

/-- `strings.HasPrefix s p` : `p` is a prefix of `s`. -/
def hasPfx (p s : Str) : Bool := p.isPrefixOf s

/-- Auxiliary accumulator form of splitting a string at a separator
character, as `strings.Split` does. -/
def splitOnAux (c : Char) : Str → Str → List Str
  | [], acc => [acc.reverse]
  | x :: xs, acc =>
    if x = c then acc.reverse :: splitOnAux c xs []
    else splitOnAux c xs (x :: acc)

/-- `strings.Split s (String.singleton c)` : split `s` at every
occurrence of `c`; always returns at least one piece. -/
def splitOnChar (c : Char) (s : Str) : List Str := splitOnAux c s []

/-- `strings.Index s (String.singleton c)` : index of the first
occurrence of `c` in `s`, or `none`. -/
def goIndexOf (c : Char) : Str → Option Nat
  | [] => none
  | x :: xs => if x = c then some 0 else (goIndexOf c xs).map (· + 1)

/-- Split at the first occurrence of `c`: `some (before, after)`, or
`none` when `c` does not occur.  `strings.SplitN s sep 2` yields one part
in the `none` case and the two parts otherwise. -/
def splitFirst (c : Char) : Str → Option (Str × Str)
  | [] => none
  | x :: xs =>
    if x = c then some ([], xs)
    else (splitFirst c xs).map (fun p => (x :: p.1, p.2))

/-- Go `unicode.IsSpace`: the White_Space property. -/
def isGoSpace (c : Char) : Bool :=
  let n := c.toNat
  n = 0x20 || n = 0x09 || n = 0x0A || n = 0x0B || n = 0x0C || n = 0x0D ||
  n = 0x85 || n = 0xA0 || n = 0x1680 ||
  (0x2000 ≤ n && n ≤ 0x200A) ||
  n = 0x2028 || n = 0x2029 || n = 0x202F || n = 0x205F || n = 0x3000

/-- `strings.TrimSpace`. -/
def trimSpace (s : Str) : Str :=
  ((s.dropWhile isGoSpace).reverse.dropWhile isGoSpace).reverse

/-- Value of a nonempty all-digit string, `none` otherwise. -/
def digitsVal : Str → Option Nat
  | [] => none
  | [c] => if c.isDigit then some (c.toNat - '0'.toNat) else none
  | c :: cs =>
    if c.isDigit then
      (digitsVal cs).map (fun n => (c.toNat - '0'.toNat) * 10 ^ cs.length + n)
    else none

/-- `strconv.ParseInt s 10 64`: optional sign, then a nonempty run of
decimal digits making up the whole string, range-checked against int64;
`none` models a returned error. -/
def goParseInt64 (s : Str) : Option Int :=
  match s with
  | [] => none
  | '+' :: rest =>
    (digitsVal rest).bind (fun n => if n ≤ 2 ^ 63 - 1 then some (n : Int) else none)
  | '-' :: rest =>
    (digitsVal rest).bind (fun n => if n ≤ 2 ^ 63 then some (-(n : Int)) else none)
  | _ =>
    (digitsVal s).bind (fun n => if n ≤ 2 ^ 63 - 1 then some (n : Int) else none)

/-- `Position` (panics.go): one parsed stack frame location. -/
structure Position where
  FuncLine : Str
  FileLine : Str
  File : Str
  Line : Int
  Function : Str
  Depth : Int
deriving DecidableEq, Repr

/-- `unknownLoc` (panics.go): the sentinel location.  `Line` is the Go
zero value `0` because the literal does not set it. -/
def unknownLoc : Position :=
  { FileLine := "UNKNOWN".toList, FuncLine := "UNKNOWN:-1".toList,
    File := "UNKNOWN".toList, Function := "UNKNOWN".toList,
    Line := 0, Depth := -1 }

/-- The anonymous `struct { Direct Position; Actual Position }` used by
`findPanics`. -/
structure PanicLoc where
  Direct : Position
  Actual : Position
deriving DecidableEq, Repr

/-- `(*action).parseLocation` (panics.go): best-effort parse of a
(function line, file line) pair. -/
def parseLocation (funcLine fileLine : Str) : Position :=
  let funcName :=
    match goIndexOf '(' funcLine with
    | some idx => if idx > 0 then funcLine.take idx else funcLine
    | none => funcLine
  let t := trimSpace fileLine
  match splitFirst ':' t with
  | none =>
    { Function := funcName, File := t, Line := -1,
      FuncLine := funcLine, FileLine := t, Depth := 0 }
  | some (pre, post) =>
    let lineStr := post.takeWhile (fun c => c ≠ ' ')
    let line := (goParseInt64 lineStr).getD (-1)
    { Function := funcName, File := pre, Line := line,
      FuncLine := funcLine, FileLine := t, Depth := 0 }

/-- `ignoreLocationChecker` (settings.go): a predicate over a
(function line, file line) pair. -/
abbrev Checker := Str → Str → Bool

/-- `(*action).isIgnoreLoc` (panics.go), with the settings'
`ignoreLocationCheckers` list made explicit: true iff some checker
matches the pair. -/
def isIgnoreLoc (checkers : List Checker) (funcLine fileLine : Str) : Bool :=
  checkers.any (fun check => check funcLine fileLine)

/-- The path-fragment list of `ignoreStdLibLocaionChecker`
(settings.go). -/
def ignorePaths : List Str :=
  ["/src/bufio/", "/src/archive/", "/src/compress/", "/src/container/",
   "/src/context/", "/src/crypto/", "/src/database/", "/src/debug/",
   "/src/embed/", "/src/encoding/", "/src/errors/", "/src/expvar/",
   "/src/flag/", "/src/fmt/", "/src/go/", "/src/hash/", "/src/html/",
   "/src/image/", "/src/index/", "/src/io/", "/src/log/", "/src/maps/",
   "/src/math/", "/src/mine/", "/src/net/", "/src/os/", "/src/path/",
   "/src/plugin/", "/src/reflect/", "/src/regexp/", "/src/runtime/",
   "/src/slices/", "/src/sort/", "/src/strconv/", "/src/strings/",
   "/src/sync/", "/src/syscall/", "/src/testing/", "/src/text/",
   "/src/time/", "/src/unicode/", "/src/unsafe/"].map String.toList

/-- `strings.Contains s sub`: `sub` occurs contiguously in `s`. -/
def containsSub (sub : Str) : Str → Bool
  | [] => sub.isEmpty
  | c :: rest => sub.isPrefixOf (c :: rest) || containsSub sub rest

/-- `ignoreContainPath.shouldIgnore` (settings.go):
`strings.Contains fileLine path` for some configured path. -/
def shouldIgnoreContainPath (paths : List Str) (_funcLine fileLine : Str) : Bool :=
  paths.any (fun path => containsSub path fileLine)

/-- `ignoreStdLibLocaionChecker` (settings.go, name kept verbatim). -/
def ignoreStdLibLocaionChecker : Checker := shouldIgnoreContainPath ignorePaths

/-- The checker list of `Default()` settings (settings.go). -/
def defaultCheckers : List Checker := [ignoreStdLibLocaionChecker]

/-- The unwind-trigger marker prefix scanned for by `findPanics`. -/
def pMark : Str := "panic(".toList

/-- The scanning loop of `(*action).findPanics` (panics.go, lines
175–207), embedded with a fuel parameter (the Go loop advances `i` by at
least one per iteration, so `lines.length` fuel suffices from `i = 0`).
`none` models a Go runtime panic: either the out-of-range accesses
`lines[i+2]`/`lines[i+3]` after a trigger marker, or (unreachably, given
sufficient fuel) fuel exhaustion.  The Go index `i-1` is `Nat`
subtraction here; the loop only consults it with `i ≥ 3`, where the two
agree. -/
def findPanicsLoop (pol : List Checker) (lines : List Str) :
    Nat → Nat → Option Position → List PanicLoc →
    Option (List PanicLoc × Option Position)
  | fuel, i, direct, acc =>
    if i < lines.length then
      match fuel with
      | 0 => none
      | fuel + 1 =>
        match direct with
        | some d =>
          match lines[i - 1]?, lines[i]? with
          | some prev, some cur =>
            if isIgnoreLoc pol prev cur then
              findPanicsLoop pol lines fuel (i + 2) (some d) acc
            else
              findPanicsLoop pol lines fuel (i + 1) none
                (acc ++ [⟨d, parseLocation prev cur⟩])
          | _, _ => none
        | none =>
          match lines[i]? with
          | some cur =>
            if hasPfx pMark cur then
              match lines[i + 2]?, lines[i + 3]? with
              | some l2, some l3 =>
                findPanicsLoop pol lines fuel (i + 3)
                  (some (parseLocation l2 l3)) acc
              | _, _ => none
            else
              findPanicsLoop pol lines fuel (i + 1) none acc
          | none => none
    else some (acc, direct)

/-- The depth post-pass of `findPanics` (panics.go, lines 224–226). -/
def assignDepths (l : List PanicLoc) : List PanicLoc :=
  l.mapIdx (fun k r =>
    ⟨{ r.Direct with Depth := (k : Int) }, { r.Actual with Depth := (k : Int) }⟩)

/-- `(*action).findPanics` (panics.go): split the dump into lines, run
the scanning loop, close out a pending direct location, fall back to the
sentinel when nothing was found, then assign depths.  `none` models a Go
runtime panic escaping `findPanics`. -/
def findPanics (pol : List Checker) (stack : Str) : Option (List PanicLoc) :=
  match findPanicsLoop pol (splitOnChar '\n' stack)
      (splitOnChar '\n' stack).length 0 none [] with
  | none => none
  | some (acc, some d) => some (assignDepths (acc ++ [⟨d, d⟩]))
  | some (acc, none) =>
    if acc.isEmpty then some [⟨unknownLoc, unknownLoc⟩]
    else some (assignDepths acc)

/-! ## The action / callback layer (`postRecover` and the safe fallback
runner)

A Go callback slot of type `*func(...)` is modelled by `CB`: the pointer
may be nil (`nilPtr`, from `Panic(nil)`-style builder calls), the pointer
may point to a nil function value (`nilFunc`, from
`PanicStatic(nil)`-style calls), or a real function may be present, in
which case the only behaviour relevant to the model is whether invoking
it panics (`fn panics`).  The settings' `watch` field is a plain function
value, modelled as `Option Bool` (`none` = nil function, `some p` =
present, panics iff `p`).

`postRecover` is modelled as a trace-producing function: it returns the
list of callback-invocation events in execution order together with a
flag telling whether a panic propagates out of it to the caller of
`Recover`/`RecoverWithContext`.  A user callback that panics under safe
mode is re-captured by `Use(fallbackSettings).RecoverWithContext`, i.e.
by a nested `postRecover` running with the fallback action; that nested
run captures its own runtime stack dump, which the model abstracts as
the parameter `ρ` (the same abstract dump for every nested capture).
The recursion is embedded with a fuel parameter; the outer entry point
`postRecover` uses fuel 2, which is proved sufficient (the fallback
action is non-safe, so the nesting depth is at most one). -/

/-- A `*func(...)` callback slot of `action` (panics.go). -/
inductive CB where
  | nilPtr
  | nilFunc
  | fn (panics : Bool)
deriving DecidableEq, Repr

/-- The parts of `settings` (settings.go) that `postRecover` reads. -/
structure Config where
  checkers : List Checker
  watch : Option Bool
  safe : Bool

/-- The fields of `action` (panics.go) relevant to capture. -/
structure ActionM where
  cfg : Config
  safeOv : Option Bool
  onPanic : CB
  onSucceed : CB
  always : CB

/-- `(action).needRunFallbackSafe` (panics.go): the action's own `safe`
pointer wins, otherwise the settings' flag. -/
def needRunFallbackSafe (a : ActionM) : Bool := a.safeOv.getD a.cfg.safe

/-- `fallbackSettings` (settings.go `init`): `Default()`, i.e. the
std-lib ignore checker, the non-nil no-op `discard` watch, and
`safe = false`. -/
def fallbackCfg : Config :=
  { checkers := defaultCheckers, watch := some false, safe := false }

/-- The action built by `Use(fallbackSettings)` inside
`fallbackSafeRun`/`fallbackSafeRunWithInfo` (panics.go): no callbacks,
no safe override. -/
def fallbackActionM : ActionM :=
  { cfg := fallbackCfg, safeOv := none, onPanic := .nilPtr,
    onSucceed := .nilPtr, always := .nilPtr }

/-- Observable callback-invocation events.  `watchEv fb r` is an
invocation of a settings' watch function with the record `r`; `fb` tells
whether it is the fallback settings' `discard` watch (invoked during a
nested fallback capture) rather than the capturing action's own watch. -/
inductive Ev where
  | watchEv (fb : Bool) (r : PanicLoc)
  | onPanicEv (r : PanicLoc)
  | onSucceedEv
  | alwaysEv
deriving DecidableEq, Repr

/-- The guarded direct invocation `if f != nil && *f != nil { (*f)() }`
used by the non-safe branches of `postRecover` (panics.go lines 65–67,
72–73, 77–78): returns the emitted events and whether the call
panicked. -/
def runGuarded (cb : CB) (e : Ev) : List Ev × Bool :=
  match cb with
  | .nilPtr => ([], false)
  | .nilFunc => ([], false)
  | .fn p => ([e], p)

/-- The guarded direct watch invocation `if watch != nil { watch(info) }`
(panics.go lines 62–64). -/
def runWatchDirect (w : Option Bool) (e : Ev) : List Ev × Bool :=
  match w with
  | none => ([], false)
  | some p => ([e], p)

/-- The settings' watch function viewed through the pointer
`&a.a.load().watch` passed to `fallbackSafeRunWithInfo`: the pointer is
never nil, so a nil watch appears as a pointer to a nil function. -/
def watchAsCB (w : Option Bool) : CB :=
  match w with
  | none => .nilFunc
  | some p => .fn p

/-- `fallbackSafeRunWithInfo` (panics.go): skips a nil pointer or a
pointer to a nil function; otherwise invokes the callback with the
deferred fallback capture armed.  `inner` is the outcome of that nested
capture (its trace and whether it itself lets a panic escape); it is
consulted only when the callback panics. -/
def safeRunInfo (cb : CB) (e : Ev) (inner : Option (List Ev × Bool)) :
    Option (List Ev × Bool) :=
  match cb with
  | .nilPtr => some ([], false)
  | .nilFunc => some ([], false)
  | .fn p =>
    if p then inner.map (fun pr => (e :: pr.1, pr.2)) else some ([e], false)

/-- `fallbackSafeRun` (panics.go): like `safeRunInfo` but for `func()`
slots.  Note the source checks only `f == nil`, not `*f == nil`: a
pointer to a nil function is invoked, the nil call panics at once (no
event), and the nested fallback capture recovers it. -/
def safeRunUnit (cb : CB) (e : Ev) (inner : Option (List Ev × Bool)) :
    Option (List Ev × Bool) :=
  match cb with
  | .nilPtr => some ([], false)
  | .nilFunc => inner
  | .fn p =>
    if p then inner.map (fun pr => (e :: pr.1, pr.2)) else some ([e], false)

/-- One record-processing step of the `for _, loc := range locs` loop of
`postRecover` (panics.go lines 48–69): watch first, then `onPanic`,
through the safe wrappers when `safe` holds.  The accumulated state is
`none` for fuel exhaustion inside a nested capture and `some (tr, true)`
once a panic is propagating (the Go loop is abandoned mid-unwind, so
later records add nothing). -/
def stepRecord (a : ActionM) (fb safe : Bool) (inner : Option (List Ev × Bool))
    (st : Option (List Ev × Bool)) (r : PanicLoc) : Option (List Ev × Bool) :=
  match st with
  | none => none
  | some (tr, true) => some (tr, true)
  | some (tr, false) =>
    if safe then
      match safeRunInfo (watchAsCB a.cfg.watch) (.watchEv fb r) inner with
      | none => none
      | some (tr1, p1) =>
        if p1 then some (tr ++ tr1, true)
        else
          match safeRunInfo a.onPanic (.onPanicEv r) inner with
          | none => none
          | some (tr2, p2) => some (tr ++ tr1 ++ tr2, p2)
    else
      let w := runWatchDirect a.cfg.watch (.watchEv fb r)
      if w.2 then some (tr ++ w.1, true)
      else
        let g := runGuarded a.onPanic (.onPanicEv r)
        some (tr ++ w.1 ++ g.1, g.2)

/-- `(action).postRecover` (panics.go lines 41–80), as a trace semantics.
Arguments: fuel, the abstract dump `ρ` captured by nested fallback
recoveries, whether this run is such a nested fallback run (`fb`, used
only to tag watch events), the action, whether a panic was in flight
(`pe`), and the dump text captured for this run.  The result is `none`
on fuel exhaustion, otherwise the event trace and whether a panic
propagates out. -/
def postRecoverF : Nat → Str → Bool → ActionM → Bool → Str →
    Option (List Ev × Bool)
  | 0, _, _, _, _, _ => none
  | fuel + 1, ρ, fb, a, pe, stack =>
    let safe := needRunFallbackSafe a
    let inner := postRecoverF fuel ρ true fallbackActionM true ρ
    let phase1 : Option (List Ev × Bool) :=
      if pe then
        match findPanics a.cfg.checkers stack with
        | none => some ([], true)
        | some recs =>
          recs.foldl (stepRecord a fb safe inner) (some ([], false))
      else
        if safe then safeRunUnit a.onSucceed .onSucceedEv inner
        else some (runGuarded a.onSucceed .onSucceedEv)
    match phase1 with
    | none => none
    | some (tr, true) => some (tr, true)
    | some (tr, false) =>
      let alw :=
        if safe then safeRunUnit a.always .alwaysEv inner
        else some (runGuarded a.always .alwaysEv)
      match alw with
      | none => none
      | some (tr2, p2) => some (tr ++ tr2, p2)

/-- `postRecover` at fuel 2: sufficient for every run, because the only
nested capture uses `fallbackActionM`, which is non-safe and so nests no
further (proved below). -/
def postRecover (ρ : Str) (a : ActionM) (pe : Bool) (stack : Str) :
    Option (List Ev × Bool) :=
  postRecoverF 2 ρ false a pe stack

/-! ## Spec-side definitions

The definitions below are written from the specification's wording (and
from the claims), for stating properties about the source-derived model
above. -/

/-- Number of unwind-trigger marker lines in a dump: lines beginning
with the literal prefix `panic(`. -/
def countMarkers (stack : Str) : Nat :=
  (splitOnChar '\n' stack).countP (fun l => hasPfx pMark l)

/-- Spec reading (amended): the function name is the part of the
function line strictly before its first `(` when that occurs at a
positive index, and the whole line when `(` is absent or at index 0. -/
def specFuncName (l : Str) : Str :=
  match goIndexOf '(' l with
  | none => l
  | some 0 => l
  | some (Nat.succ k) => l.take (k + 1)

/-- Spec reading: the file path is the whitespace-trimmed file line up
to (excluding) its first `:`. -/
def specFileOf (fl : Str) : Str :=
  (trimSpace fl).takeWhile (fun c => c ≠ ':')

/-- Spec reading: the line number comes from the text after the first
`:` of the trimmed file line, up to the first space, parsed as a decimal
int64; `-1` when there is no `:` or parsing fails. -/
def specLineOf (fl : Str) : Int :=
  let t := trimSpace fl
  if t.contains ':' then
    (goParseInt64 (((t.dropWhile (fun c => c ≠ ':')).drop 1).takeWhile
      (fun c => c ≠ ' '))).getD (-1)
  else -1

/-- No ignore-predicate of `pol` matches any consecutive
(function line, file line) pair of `lines` — the frames the walker can
ever consult. -/
def noIgnoredPair (pol : List Checker) (lines : List Str) : Bool :=
  (List.range lines.length).all (fun j =>
    match lines[j]?, lines[j + 1]? with
    | some a, some b => !isIgnoreLoc pol a b
    | _, _ => true)

/-- The claim's ordering property on a trace: every watch invocation for
a record is preceded by an `onPanic` invocation for the same record. -/
def precededByOnPanic (tr : List Ev) : Bool :=
  (List.range tr.length).all (fun i =>
    match tr[i]? with
    | some (Ev.watchEv _ r) => (tr.take i).contains (Ev.onPanicEv r)
    | _ => true)

/-- One canonical event block of a well-formed dump: the trigger marker
line, the trigger's own file line, then the (function, file) pair of the
frame that invoked the triggering operation. -/
structure Blk where
  marker : Str
  pfile : Str
  fnLine : Str
  flLine : Str
deriving DecidableEq, Repr

/-- The four dump lines of a canonical block. -/
def blkLines (b : Blk) : List Str := [b.marker, b.pfile, b.fnLine, b.flLine]

/-- The pre-depth record the walker emits for a canonical block whose
frame pair is not ignored. -/
def blkRec (b : Blk) : PanicLoc :=
  ⟨parseLocation b.fnLine b.flLine, parseLocation b.fnLine b.flLine⟩

/-- Well-formedness of a canonical block under policy `pol`: the marker
line carries the trigger prefix, the other three lines do not, and the
frame pair is not flagged as noise. -/
def blkOk (pol : List Checker) (b : Blk) : Bool :=
  hasPfx pMark b.marker && !hasPfx pMark b.pfile && !hasPfx pMark b.fnLine &&
  !hasPfx pMark b.flLine && !isIgnoreLoc pol b.fnLine b.flLine

/-- Events emitted by invoking a benign (non-panicking, non-nil-invoked)
callback slot directly or through a safe wrapper. -/
def benignTr (cb : CB) (e : Ev) : List Ev :=
  if cb = .fn false then [e] else []

/-- Events emitted for one attribution record when the watch and
`onPanic` callbacks are benign: the watch invocation (when the watch is
set) followed by the `onPanic` invocation (when a real callback is
set). -/
def benignRecTr (a : ActionM) (fb : Bool) (r : PanicLoc) : List Ev :=
  (match a.cfg.watch with
   | none => []
   | some _ => [Ev.watchEv fb r]) ++ benignTr a.onPanic (Ev.onPanicEv r)

/-- Events of one `fallbackSafeRunWithInfo`-wrapped invocation in safe
mode, given the trace `fbTr` of a nested fallback capture: a panicking
callback contributes its own invocation event followed by the fallback
capture's events. -/
def safeCBTr (cb : CB) (e : Ev) (fbTr : List Ev) : List Ev :=
  match cb with
  | .nilPtr => []
  | .nilFunc => []
  | .fn p => if p then e :: fbTr else [e]

/-- Events of one `fallbackSafeRun`-wrapped invocation in safe mode: as
`safeCBTr`, except that a pointer to a nil function is invoked (the
source checks only `f == nil`), so the nil call panics immediately and
contributes the fallback capture's events. -/
def safeCBTrU (cb : CB) (e : Ev) (fbTr : List Ev) : List Ev :=
  match cb with
  | .nilPtr => []
  | .nilFunc => fbTr
  | .fn p => if p then e :: fbTr else [e]

/-- Events emitted for one attribution record in safe mode, arbitrary
callbacks. -/
def safeRecTr (a : ActionM) (fb : Bool) (fbTr : List Ev) (r : PanicLoc) : List Ev :=
  safeCBTr (watchAsCB a.cfg.watch) (Ev.watchEv fb r) fbTr ++
  safeCBTr a.onPanic (Ev.onPanicEv r) fbTr

/-- The trace of one nested fallback capture: the fallback settings'
watch (`discard`) invoked once per record of the nested dump. -/
def fbTrace (fbrecs : List PanicLoc) : List Ev :=
  fbrecs.flatMap (fun r => [Ev.watchEv true r])

/-- Benignity of an action's callbacks: no slot panics when invoked, and
the `func()` slots are not pointers to nil functions (which safe mode
would invoke). -/
def benignAll (a : ActionM) : Prop :=
  (a.cfg.watch = none ∨ a.cfg.watch = some false) ∧
  (a.onPanic = .nilPtr ∨ a.onPanic = .nilFunc ∨ a.onPanic = .fn false) ∧
  (a.onSucceed = .nilPtr ∨ a.onSucceed = .fn false) ∧
  (a.always = .nilPtr ∨ a.always = .fn false)

/-! ## Concrete instances used in counterexamples and witnesses -/

/-- A malformed dump in which the walker consumes the second trigger
marker line as an ordinary frame line: two marker lines, one record. -/
def cexStackTwoMarkers : Str := "panic(a\nx\npanic(b\ny".toList

/-- A minimal well-formed one-trigger dump. -/
def cexStackOne : Str := "h\npanic(x\nrp\nf\ng".toList

/-- The position the walker parses from the frame pair `f` / `g` of
`cexStackOne`, at depth 0. -/
def cexPosOne : Position :=
  { FuncLine := "f".toList, FileLine := "g".toList, File := "g".toList,
    Line := -1, Function := "f".toList, Depth := 0 }

/-- The single record produced for `cexStackOne`. -/
def cexRecOne : PanicLoc := ⟨cexPosOne, cexPosOne⟩

/-- An action with a real watch and a real `onPanic` callback, neither
panicking, non-safe, empty ignore policy. -/
def cexActionWatchPanic : ActionM :=
  { cfg := { checkers := [], watch := some false, safe := false },
    safeOv := none, onPanic := .fn false, onSucceed := .nilPtr,
    always := .nilPtr }

/-- A canonical two-trigger dump (header plus two canonical blocks). -/
def cexStackCanonical2 : Str :=
  ("goroutine 1 [running]:\npanic(0x1, 0x2)\n\t/go/src/runtime/panic.go:838 +0x204\nmain.recoverThenPanic()\n\t/a/main.go:38 +0xf0\npanic(0x1, 0x3)\n\t/go/src/runtime/panic.go:838 +0x204\nmain.main()\n\t/a/main.go:19 +0x194").toList

/-- The two canonical blocks of `cexStackCanonical2`. -/
def cexBlocks2 : List Blk :=
  [{ marker := "panic(0x1, 0x2)".toList,
     pfile := "\t/go/src/runtime/panic.go:838 +0x204".toList,
     fnLine := "main.recoverThenPanic()".toList,
     flLine := "\t/a/main.go:38 +0xf0".toList },
   { marker := "panic(0x1, 0x3)".toList,
     pfile := "\t/go/src/runtime/panic.go:838 +0x204".toList,
     fnLine := "main.main()".toList,
     flLine := "\t/a/main.go:19 +0x194".toList }]

/-- The `fmt.Fprintf` scenario dump from the source's documentation:
one trigger, direct frame inside `/src/fmt/`, actual frame in user
code. -/
def cexStackFmt : Str :=
  ("goroutine 1 [running]:\nmain.recoverSimple()\n\t/a/main.go:19\npanic(0x1, 0x2)\n\t/go/src/runtime/panic.go:770 +0x124\nfmt.Fprintf(0x0, 0x1)\n\t/go/src/fmt/print.go:225 +0x58\nmain.main()\n\t/a/main.go:12 +0x74").toList

/-- An action with real non-panicking watch, `onPanic`, `onSucceed` and
`always` callbacks, non-safe, empty ignore policy. -/
def cexActionFull : ActionM :=
  { cfg := { checkers := [], watch := some false, safe := false },
    safeOv := none, onPanic := .fn false, onSucceed := .fn false,
    always := .fn false }

/-- A safe-mode action whose `always` callback itself panics. -/
def cexActionSafePanicking : ActionM :=
  { cfg := { checkers := [], watch := some false, safe := false },
    safeOv := some true, onPanic := .nilPtr, onSucceed := .fn false,
    always := .fn true }

/-- A safe-mode action with every callback slot nil: `onPanic` a nil
pointer, `onSucceed` and `always` pointers to nil functions. -/
def cexActionAllNil : ActionM :=
  { cfg := { checkers := [], watch := some false, safe := true },
    safeOv := none, onPanic := .nilPtr, onSucceed := .nilFunc,
    always := .nilFunc }

/-! ## Lemmas about the stack walker -/

theorem findPanicsLoop_end (pol : List Checker) (lines : List Str)
    (fuel i : Nat) (direct : Option Position) (acc : List PanicLoc)
    (h : lines.length ≤ i) :
    findPanicsLoop pol lines fuel i direct acc = some (acc, direct) := by
  rw [findPanicsLoop.eq_def]
  simp [Nat.not_lt.2 h]

theorem findPanicsLoop_skipOne (pol : List Checker) (lines : List Str)
    (fuel i : Nat) (acc : List PanicLoc) (cur : Str)
    (hcur : lines[i]? = some cur) (hm : hasPfx pMark cur = false) :
    findPanicsLoop pol lines (fuel + 1) i none acc
      = findPanicsLoop pol lines fuel (i + 1) none acc := by
  have hi : i < lines.length := (List.getElem?_eq_some.1 hcur).1
  rw [findPanicsLoop.eq_def]
  simp [hi, hcur, hm]

theorem findPanicsLoop_skipSeg (pol : List Checker) (lines : List Str) :
    ∀ (k fuel i : Nat) (acc : List PanicLoc),
    i + k ≤ lines.length →
    (∀ j l, i ≤ j → j < i + k → lines[j]? = some l → hasPfx pMark l = false) →
    findPanicsLoop pol lines (fuel + k) i none acc
      = findPanicsLoop pol lines fuel (i + k) none acc := by
  intro k
  induction k with
  | zero => intro fuel i acc _ _; rfl
  | succ k ih =>
    intro fuel i acc hlen hnm
    have hi : i < lines.length := by omega
    obtain ⟨cur, hcur⟩ : ∃ cur, lines[i]? = some cur :=
      ⟨_, List.getElem?_eq_getElem hi⟩
    have hstep := findPanicsLoop_skipOne pol lines (fuel + k) i acc cur hcur
      (hnm i cur (le_refl i) (by omega) hcur)
    have : fuel + (k + 1) = fuel + k + 1 := by omega
    rw [this, hstep, ih fuel (i + 1) acc (by omega)]
    · congr 1
      omega
    · intro j l hj hj' hl
      exact hnm j l (by omega) (by omega) hl

theorem findPanicsLoop_block (pol : List Checker) (lines : List Str)
    (fuel i : Nat) (acc : List PanicLoc) (m f g : Str)
    (hm : lines[i]? = some m) (hpm : hasPfx pMark m = true)
    (hf : lines[i + 2]? = some f) (hg : lines[i + 3]? = some g)
    (hign : isIgnoreLoc pol f g = false) :
    findPanicsLoop pol lines (fuel + 2) i none acc
      = findPanicsLoop pol lines fuel (i + 4) none
          (acc ++ [⟨parseLocation f g, parseLocation f g⟩]) := by
  have hi : i < lines.length := (List.getElem?_eq_some.1 hm).1
  have hi3 : i + 3 < lines.length := (List.getElem?_eq_some.1 hg).1
  rw [findPanicsLoop.eq_def]
  simp only [hi, if_true, hm, hpm, hf, hg]
  rw [findPanicsLoop.eq_def]
  have h2 : i + 3 - 1 = i + 2 := by omega
  simp only [hi3, if_true, h2, hf, hg, hign]
  norm_num

theorem findPanicsLoop_blockIgn (pol : List Checker) (lines : List Str)
    (fuel i : Nat) (acc : List PanicLoc) (m f1 g1 f2 g2 : Str)
    (hm : lines[i]? = some m) (hpm : hasPfx pMark m = true)
    (hf1 : lines[i + 2]? = some f1) (hg1 : lines[i + 3]? = some g1)
    (hf2 : lines[i + 4]? = some f2) (hg2 : lines[i + 5]? = some g2)
    (hign1 : isIgnoreLoc pol f1 g1 = true) (hign2 : isIgnoreLoc pol f2 g2 = false) :
    findPanicsLoop pol lines (fuel + 3) i none acc
      = findPanicsLoop pol lines fuel (i + 6) none
          (acc ++ [⟨parseLocation f1 g1, parseLocation f2 g2⟩]) := by
  have hi : i < lines.length := (List.getElem?_eq_some.1 hm).1
  have hi3 : i + 3 < lines.length := (List.getElem?_eq_some.1 hg1).1
  have hi5 : i + 5 < lines.length := (List.getElem?_eq_some.1 hg2).1
  rw [findPanicsLoop.eq_def]
  simp only [hi, if_true, hm, hpm, hf1, hg1]
  rw [findPanicsLoop.eq_def]
  have h2 : i + 3 - 1 = i + 2 := by omega
  simp only [hi3, if_true, h2, hf1, hg1, hign1]
  rw [findPanicsLoop.eq_def]
  have h4 : i + 3 + 2 = i + 5 := by omega
  have h5 : i + 5 - 1 = i + 4 := by omega
  simp only [h4, hi5, if_true, h5, hf2, hg2, hign2]
  norm_num

theorem findPanicsLoop_stepMarker (pol : List Checker) (lines : List Str)
    (fuel i : Nat) (acc : List PanicLoc) (cur l2 l3 : Str)
    (hcur : lines[i]? = some cur) (hm : hasPfx pMark cur = true)
    (h2 : lines[i + 2]? = some l2) (h3 : lines[i + 3]? = some l3) :
    findPanicsLoop pol lines (fuel + 1) i none acc
      = findPanicsLoop pol lines fuel (i + 3) (some (parseLocation l2 l3)) acc := by
  have hi : i < lines.length := (List.getElem?_eq_some.1 hcur).1
  rw [findPanicsLoop.eq_def]
  simp [hi, hcur, hm, h2, h3]

theorem findPanicsLoop_stepMarkerOOB (pol : List Checker) (lines : List Str)
    (fuel i : Nat) (acc : List PanicLoc) (cur : Str)
    (hcur : lines[i]? = some cur) (hm : hasPfx pMark cur = true)
    (h3 : lines[i + 3]? = none) :
    findPanicsLoop pol lines (fuel + 1) i none acc = none := by
  have hi : i < lines.length := (List.getElem?_eq_some.1 hcur).1
  rw [findPanicsLoop.eq_def]
  rcases h2 : lines[i + 2]? with _ | l2 <;> simp [hi, hcur, hm, h2, h3]

theorem findPanicsLoop_stepDirectIgn (pol : List Checker) (lines : List Str)
    (fuel i : Nat) (d : Position) (acc : List PanicLoc) (prev cur : Str)
    (hprev : lines[i - 1]? = some prev) (hcur : lines[i]? = some cur)
    (hign : isIgnoreLoc pol prev cur = true) :
    findPanicsLoop pol lines (fuel + 1) i (some d) acc
      = findPanicsLoop pol lines fuel (i + 2) (some d) acc := by
  have hi : i < lines.length := (List.getElem?_eq_some.1 hcur).1
  rw [findPanicsLoop.eq_def]
  simp [hi, hprev, hcur, hign]

theorem findPanicsLoop_stepDirectSel (pol : List Checker) (lines : List Str)
    (fuel i : Nat) (d : Position) (acc : List PanicLoc) (prev cur : Str)
    (hprev : lines[i - 1]? = some prev) (hcur : lines[i]? = some cur)
    (hign : isIgnoreLoc pol prev cur = false) :
    findPanicsLoop pol lines (fuel + 1) i (some d) acc
      = findPanicsLoop pol lines fuel (i + 1) none
          (acc ++ [⟨d, parseLocation prev cur⟩]) := by
  have hi : i < lines.length := (List.getElem?_eq_some.1 hcur).1
  rw [findPanicsLoop.eq_def]
  simp [hi, hprev, hcur, hign]

theorem findPanicsLoop_tailNoMarker (pol : List Checker) (lines : List Str) :
    ∀ (fuel i : Nat) (acc : List PanicLoc),
    lines.length ≤ fuel + i →
    (∀ j l, i ≤ j → lines[j]? = some l → hasPfx pMark l = false) →
    findPanicsLoop pol lines fuel i none acc = some (acc, none) := by
  intro fuel
  induction fuel with
  | zero =>
    intro i acc hlen _
    exact findPanicsLoop_end pol lines 0 i none acc (by omega)
  | succ fuel ih =>
    intro i acc hlen hnm
    by_cases hi : i < lines.length
    · obtain ⟨cur, hcur⟩ : ∃ cur, lines[i]? = some cur :=
        ⟨_, List.getElem?_eq_getElem hi⟩
      rw [findPanicsLoop_skipOne pol lines fuel i acc cur hcur
        (hnm i cur (le_refl i) hcur)]
      exact ih (i + 1) acc (by omega) (fun j l hj hl => hnm j l (by omega) hl)
    · exact findPanicsLoop_end pol lines _ i none acc (by omega)

theorem findPanicsLoop_actual_eq (pol : List Checker) (lines : List Str)
    (hpairs : ∀ j a b, lines[j]? = some a → lines[j + 1]? = some b →
      isIgnoreLoc pol a b = false) :
    ∀ (fuel i : Nat) (direct : Option Position) (acc : List PanicLoc)
      (res : List PanicLoc × Option Position),
    (∀ d, direct = some d → ∃ a b, 1 ≤ i ∧ lines[i - 1]? = some a ∧
      lines[i]? = some b ∧ d = parseLocation a b) →
    (∀ r ∈ acc, r.Actual = r.Direct) →
    findPanicsLoop pol lines fuel i direct acc = some res →
    ∀ r ∈ res.1, r.Actual = r.Direct := by
  intro fuel
  induction fuel with
  | zero =>
    intro i direct acc res _ hacc hrun
    by_cases hi : i < lines.length
    · rw [findPanicsLoop.eq_def] at hrun
      simp [hi] at hrun
    · rw [findPanicsLoop_end pol lines 0 i direct acc (by omega)] at hrun
      cases hrun
      exact hacc
  | succ fuel ih =>
    intro i direct acc res hd hacc hrun
    by_cases hi : i < lines.length
    · cases direct with
      | some d =>
        obtain ⟨a, b, h1, ha, hb, hdab⟩ := hd d rfl
        by_cases hign : isIgnoreLoc pol a b = true
        · rw [findPanicsLoop_stepDirectIgn pol lines fuel i d acc a b ha hb hign]
            at hrun
          refine ih (i + 2) (some d) acc res (fun d' hd' => ?_) hacc hrun
          cases hd'
          have hcontra := hpairs (i - 1) a b ha (by
            have : i - 1 + 1 = i := by omega
            rw [this]; exact hb)
          rw [hign] at hcontra
          cases hcontra
        · rw [findPanicsLoop_stepDirectSel pol lines fuel i d acc a b ha hb
            (by simpa using hign)] at hrun
          refine ih (i + 1) none _ res (by simp) (fun r hr => ?_) hrun
          rcases List.mem_append.1 hr with h | h
          · exact hacc r h
          · simp at h
            subst h
            simp [hdab]
      | none =>
        obtain ⟨cur, hcur⟩ : ∃ cur, lines[i]? = some cur :=
          ⟨_, List.getElem?_eq_getElem hi⟩
        by_cases hm : hasPfx pMark cur = true
        · rcases h3 : lines[i + 3]? with _ | l3
          · rw [findPanicsLoop_stepMarkerOOB pol lines fuel i acc cur hcur hm h3]
              at hrun
            cases hrun
          · rcases h2 : lines[i + 2]? with _ | l2
            · rw [findPanicsLoop.eq_def] at hrun
              simp [hi, hcur, hm, h2, h3] at hrun
            · rw [findPanicsLoop_stepMarker pol lines fuel i acc cur l2 l3
                hcur hm h2 h3] at hrun
              refine ih (i + 3) _ acc res (fun d' hd' => ?_) hacc hrun
              cases hd'
              refine ⟨l2, l3, by omega, ?_, h3, rfl⟩
              have : i + 3 - 1 = i + 2 := by omega
              rw [this]; exact h2
        · rw [findPanicsLoop_skipOne pol lines fuel i acc cur hcur
            (by simpa using hm)] at hrun
          exact ih (i + 1) none acc res (by simp) hacc hrun
    · rw [findPanicsLoop_end pol lines _ i direct acc (by omega)] at hrun
      cases hrun
      exact hacc

/-- The joined lines of a list of canonical blocks have length `4 · N`. -/
theorem blkLines_join_length (bs : List Blk) :
    ((bs.map blkLines).flatten).length = 4 * bs.length := by
  induction bs with
  | nil => simp
  | cons b rest ih => simp [blkLines, ih]; omega

theorem findPanicsLoop_blocks (pol : List Checker) :
    ∀ (bs : List Blk) (pre : List Str) (acc : List PanicLoc) (fuel : Nat),
    (∀ b ∈ bs, blkOk pol b = true) →
    findPanicsLoop pol (pre ++ (bs.map blkLines).flatten) (fuel + 2 * bs.length)
        pre.length none acc
      = some (acc ++ bs.map blkRec, none) := by
  intro bs
  induction bs with
  | nil =>
    intro pre acc fuel _
    simp only [List.map_nil, List.flatten_nil, List.append_nil, List.length_nil,
      Nat.mul_zero, Nat.add_zero]
    rw [findPanicsLoop_end pol pre fuel pre.length none acc (le_refl _)]
  | cons b rest ih =>
    intro pre acc fuel hok
    have hokb := hok b (List.mem_cons_self b rest)
    simp only [blkOk, Bool.and_eq_true, Bool.not_eq_true'] at hokb
    obtain ⟨⟨⟨⟨hmk, _⟩, hfn⟩, hfl⟩, hign⟩ := hokb
    have hlines : pre ++ ((b :: rest).map blkLines).flatten
        = pre ++ (blkLines b ++ (rest.map blkLines).flatten) := by
      simp
    have hget : ∀ t x, (blkLines b ++ (rest.map blkLines).flatten)[t]? = some x →
        (pre ++ (blkLines b ++ (rest.map blkLines).flatten))[pre.length + t]? = some x := by
      intro t x hx
      rw [List.getElem?_append_right (by omega)]
      simpa using hx
    have hm : (pre ++ (blkLines b ++ (rest.map blkLines).flatten))[pre.length + 0]?
        = some b.marker := hget 0 _ (by simp [blkLines])
    have hf : (pre ++ (blkLines b ++ (rest.map blkLines).flatten))[pre.length + 2]?
        = some b.fnLine := hget 2 _ (by simp [blkLines])
    have hg : (pre ++ (blkLines b ++ (rest.map blkLines).flatten))[pre.length + 3]?
        = some b.flLine := hget 3 _ (by simp [blkLines])
    rw [hlines]
    have hfuel : fuel + 2 * (b :: rest).length = (fuel + 2 * rest.length) + 2 := by
      simp [List.length_cons]; omega
    rw [hfuel]
    rw [show pre.length = pre.length + 0 from rfl] at hm
    rw [findPanicsLoop_block pol _ (fuel + 2 * rest.length) pre.length acc
      b.marker b.fnLine b.flLine (by simpa using hm) hmk hf hg hign]
    have hassoc : pre ++ (blkLines b ++ (rest.map blkLines).flatten)
        = (pre ++ blkLines b) ++ (rest.map blkLines).flatten := by
      simp
    have hlen4 : pre.length + 4 = (pre ++ blkLines b).length := by
      simp [blkLines]
    rw [hassoc, hlen4]
    rw [ih (pre ++ blkLines b) _ fuel
      (fun b' hb' => hok b' (List.mem_cons_of_mem b hb'))]
    simp [blkRec]

/-- `assignDepths` leaves the list length unchanged. -/
theorem assignDepths_length (l : List PanicLoc) :
    (assignDepths l).length = l.length := by
  simp [assignDepths]

/-- Element `k` of `assignDepths l` is element `k` of `l` with both
depths set to `k`. -/
theorem assignDepths_getElem (l : List PanicLoc) (k : Nat)
    (h : k < (assignDepths l).length) :
    (assignDepths l)[k]
      = ⟨{ (l.get ⟨k, by simpa [assignDepths] using h⟩).Direct with
             Depth := (k : Int) },
         { (l.get ⟨k, by simpa [assignDepths] using h⟩).Actual with
             Depth := (k : Int) }⟩ := by
  simp [assignDepths]

/-- `assignDepths` preserves agreement of the two positions. -/
theorem assignDepths_actual_eq (l : List PanicLoc)
    (h : ∀ r ∈ l, r.Actual = r.Direct) :
    ∀ r ∈ assignDepths l, r.Actual = r.Direct := by
  intro r hr
  obtain ⟨k, hk, hkr⟩ := List.getElem_of_mem hr
  have hk' : k < l.length := by simpa [assignDepths] using hk
  have heq := h l[k] (List.getElem_mem hk')
  rw [← hkr, assignDepths_getElem]
  simp [heq]

/-! ## Lemmas about the callback layer -/

theorem foldl_stepRecord_benign (a : ActionM) (fb safe : Bool)
    (inner : Option (List Ev × Bool))
    (hw : a.cfg.watch = none ∨ a.cfg.watch = some false)
    (hp : a.onPanic = .nilPtr ∨ a.onPanic = .nilFunc ∨ a.onPanic = .fn false) :
    ∀ (recs : List PanicLoc) (tr : List Ev),
    recs.foldl (stepRecord a fb safe inner) (some (tr, false))
      = some (tr ++ recs.flatMap (benignRecTr a fb), false) := by
  intro recs
  induction recs with
  | nil => intro tr; simp
  | cons r rest ih =>
    intro tr
    have hstep : stepRecord a fb safe inner (some (tr, false)) r
        = some (tr ++ benignRecTr a fb r, false) := by
      rcases hw with hw | hw <;> rcases hp with hp | hp | hp <;>
        cases safe <;>
        simp [stepRecord, benignRecTr, benignTr, safeRunInfo, runWatchDirect,
          runGuarded, watchAsCB, hw, hp]
    rw [List.foldl_cons, hstep, ih]
    simp

theorem foldl_stepRecord_safe (a : ActionM) (fb : Bool) (fbTr : List Ev) :
    ∀ (recs : List PanicLoc) (tr : List Ev),
    recs.foldl (stepRecord a fb true (some (fbTr, false))) (some (tr, false))
      = some (tr ++ recs.flatMap (safeRecTr a fb fbTr), false) := by
  intro recs
  induction recs with
  | nil => intro tr; simp
  | cons r rest ih =>
    intro tr
    have hstep : stepRecord a fb true (some (fbTr, false)) (some (tr, false)) r
        = some (tr ++ safeRecTr a fb fbTr r, false) := by
      rcases hw : a.cfg.watch with _ | wb <;> rcases hp : a.onPanic with _ | _ | pb <;>
        first
        | (cases wb <;> cases pb <;>
            simp [stepRecord, safeRecTr, safeCBTr, safeRunInfo, watchAsCB, hw, hp])
        | (cases wb <;>
            simp [stepRecord, safeRecTr, safeCBTr, safeRunInfo, watchAsCB, hw, hp])
        | (cases pb <;>
            simp [stepRecord, safeRecTr, safeCBTr, safeRunInfo, watchAsCB, hw, hp])
        | simp [stepRecord, safeRecTr, safeCBTr, safeRunInfo, watchAsCB, hw, hp]
    rw [List.foldl_cons, hstep, ih]
    simp

theorem postRecoverF_fallback (n : Nat) (ρ : Str) :
    postRecoverF (n + 1) ρ true fallbackActionM true ρ
      = match findPanics defaultCheckers ρ with
        | none => some ([], true)
        | some recs => some (fbTrace recs, false) := by
  have hsafe : needRunFallbackSafe fallbackActionM = false := rfl
  have hch : fallbackActionM.cfg.checkers = defaultCheckers := rfl
  have hwpat : fallbackActionM.cfg.watch = some false := rfl
  have hop : fallbackActionM.onPanic = CB.nilPtr := rfl
  have hal : fallbackActionM.always = CB.nilPtr := rfl
  rw [postRecoverF.eq_def]
  rcases hfp : findPanics defaultCheckers ρ with _ | recs
  · simp [hsafe, hch, hfp, runGuarded, hal]
  · have hfold := foldl_stepRecord_benign fallbackActionM true false
      (postRecoverF n ρ true fallbackActionM true ρ)
      (Or.inr hwpat) (Or.inl hop) recs []
    have hfn : benignRecTr fallbackActionM true = fun r => [Ev.watchEv true r] := by
      funext r
      simp [benignRecTr, benignTr, hwpat, hop]
    simp [hsafe, hch, hfp, hfold, runGuarded, hal, fbTrace, hfn]

theorem postRecoverF_benign_pe (n : Nat) (ρ : Str) (fb : Bool) (a : ActionM)
    (stack : Str) (recs : List PanicLoc)
    (hw : a.cfg.watch = none ∨ a.cfg.watch = some false)
    (hp : a.onPanic = .nilPtr ∨ a.onPanic = .nilFunc ∨ a.onPanic = .fn false)
    (ha : a.always = .nilPtr ∨ a.always = .fn false)
    (hfp : findPanics a.cfg.checkers stack = some recs) :
    postRecoverF (n + 1) ρ fb a true stack
      = some (recs.flatMap (benignRecTr a fb)
              ++ benignTr a.always Ev.alwaysEv, false) := by
  rw [postRecoverF.eq_def]
  have hfoldT := foldl_stepRecord_benign a fb true
    (postRecoverF n ρ true fallbackActionM true ρ) hw hp recs []
  have hfoldF := foldl_stepRecord_benign a fb false
    (postRecoverF n ρ true fallbackActionM true ρ) hw hp recs []
  rcases ha with ha | ha <;> cases hsafe : needRunFallbackSafe a <;>
    simp [hsafe, ha, hfp, hfoldT, hfoldF, safeRunUnit, runGuarded, benignTr]

theorem postRecoverF_benign_nope (n : Nat) (ρ : Str) (fb : Bool) (a : ActionM)
    (stack : Str)
    (hs : a.onSucceed = .nilPtr ∨ a.onSucceed = .fn false)
    (ha : a.always = .nilPtr ∨ a.always = .fn false) :
    postRecoverF (n + 1) ρ fb a false stack
      = some (benignTr a.onSucceed Ev.onSucceedEv
              ++ benignTr a.always Ev.alwaysEv, false) := by
  rw [postRecoverF.eq_def]
  rcases hs with hs | hs <;> rcases ha with ha | ha <;>
    cases hsafe : needRunFallbackSafe a <;>
    simp [hsafe, hs, ha, safeRunUnit, runGuarded, benignTr]

theorem postRecoverF_nonsafe (n : Nat) (ρ : Str) (fb : Bool) (a : ActionM)
    (pe : Bool) (stack : Str) (recs : List PanicLoc)
    (hsafe : needRunFallbackSafe a = false)
    (hw : a.cfg.watch = none ∨ a.cfg.watch = some false)
    (hp : a.onPanic = .nilPtr ∨ a.onPanic = .nilFunc ∨ a.onPanic = .fn false)
    (hs : a.onSucceed = .nilPtr ∨ a.onSucceed = .nilFunc ∨ a.onSucceed = .fn false)
    (ha : a.always = .nilPtr ∨ a.always = .nilFunc ∨ a.always = .fn false)
    (hfp : findPanics a.cfg.checkers stack = some recs) :
    postRecoverF (n + 1) ρ fb a pe stack
      = some ((if pe then recs.flatMap (benignRecTr a fb)
               else benignTr a.onSucceed Ev.onSucceedEv)
              ++ benignTr a.always Ev.alwaysEv, false) := by
  rw [postRecoverF.eq_def]
  have hfold := foldl_stepRecord_benign a fb false
    (postRecoverF n ρ true fallbackActionM true ρ) hw hp recs []
  cases pe
  case false =>
    rcases hs with hs | hs | hs <;> rcases ha with ha | ha | ha <;>
      simp [hsafe, hs, ha, runGuarded, benignTr]
  case true =>
    rcases ha with ha | ha | ha <;>
      simp [hsafe, ha, hfp, hfold, runGuarded, benignTr]

theorem postRecoverF_safe (n : Nat) (ρ : Str) (a : ActionM) (pe : Bool)
    (stack : Str) (recsO fbrecs : List PanicLoc)
    (hsafe : needRunFallbackSafe a = true)
    (hfp : findPanics a.cfg.checkers stack = some recsO)
    (hfb : findPanics defaultCheckers ρ = some fbrecs) :
    postRecoverF (n + 2) ρ false a pe stack
      = some ((if pe then recsO.flatMap (safeRecTr a false (fbTrace fbrecs))
               else safeCBTrU a.onSucceed Ev.onSucceedEv (fbTrace fbrecs))
              ++ safeCBTrU a.always Ev.alwaysEv (fbTrace fbrecs), false) := by
  have hinner : postRecoverF (n + 1) ρ true fallbackActionM true ρ
      = some (fbTrace fbrecs, false) := by
    rw [postRecoverF_fallback, hfb]
  have hfold := foldl_stepRecord_safe a false (fbTrace fbrecs) recsO []
  rw [show n + 2 = (n + 1) + 1 from rfl, postRecoverF.eq_def]
  cases pe
  case false =>
    rcases hsuc : a.onSucceed with _ | _ | sp <;>
    rcases halw : a.always with _ | _ | ap <;>
    first
      | (cases sp <;> cases ap <;>
          simp [hsafe, hinner, hsuc, halw, safeRunUnit, safeCBTrU])
      | (cases sp <;>
          simp [hsafe, hinner, hsuc, halw, safeRunUnit, safeCBTrU])
      | (cases ap <;>
          simp [hsafe, hinner, hsuc, halw, safeRunUnit, safeCBTrU])
      | simp [hsafe, hinner, hsuc, halw, safeRunUnit, safeCBTrU]
  case true =>
    rcases halw : a.always with _ | _ | ap <;>
    first
      | (cases ap <;>
          simp [hsafe, hinner, hfp, hfold, halw, safeRunUnit, safeCBTrU])
      | simp [hsafe, hinner, hfp, hfold, halw, safeRunUnit, safeCBTrU]

/-! ## Lemmas about the frame parser -/

theorem splitFirst_eq (c : Char) : ∀ s : Str,
    splitFirst c s =
      if s.contains c then
        some (s.takeWhile (fun x => x ≠ c), (s.dropWhile (fun x => x ≠ c)).drop 1)
      else none := by
  intro s
  induction s with
  | nil => simp [splitFirst]
  | cons x xs ih =>
    by_cases hx : x = c
    · subst hx
      simp [splitFirst, List.contains_cons]
    · have hcx : ¬c = x := fun h => hx h.symm
      cases hc : xs.contains c <;>
        simp [splitFirst, ih, List.contains_cons, hx, hcx, hc]

/-- In a list of well-formed canonical blocks, the joined lines contain
exactly one marker line per block. -/
theorem countP_blkLines_flatten (pol : List Checker) (bs : List Blk)
    (h : bs.all (blkOk pol) = true) :
    ((bs.map blkLines).flatten).countP (fun l => hasPfx pMark l) = bs.length := by
  induction bs with
  | nil => simp
  | cons b rest ih =>
    have hok := List.all_eq_true.1 h b (List.mem_cons_self b rest)
    simp only [blkOk, Bool.and_eq_true, Bool.not_eq_true'] at hok
    obtain ⟨⟨⟨⟨hmk, hpf⟩, hfn⟩, hfl⟩, _⟩ := hok
    have hrest : rest.all (blkOk pol) = true :=
      List.all_eq_true.2 (fun b' hb' =>
        List.all_eq_true.1 h b' (List.mem_cons_of_mem b hb'))
    simp only [List.map_cons, List.flatten_cons, List.countP_append, ih hrest,
      List.length_cons]
    simp [blkLines, List.countP_cons, hmk, hpf, hfn, hfl]
    omega

/-! ## Claim theorems -/

/-- C1: the specification states that the stack walker never raises on
any input, including malformed or truncated dumps in which a
trigger-marker line is one of the last three lines, degrading at worst
to the sentinel record.  The source however indexes `lines[i+2]` and
`lines[i+3]` after a trigger marker without a bounds check
(panics.go line 203), so the truncated dump consisting of the single
line `panic(` makes `findPanics` perform an out-of-range slice access —
a Go runtime panic escaping the recovery path — modelled here as
`none`. -/
theorem C1_walker_raises_on_truncated_dump :
    findPanics defaultCheckers "panic(".toList = none := by decide

/-- C2 (counterexample): a dump with two trigger-marker lines for which
the walker produces only one record, because the second marker line is
consumed as an ordinary frame line while the first marker's actual-frame
search is still in progress.  This refutes the claim as stated for
arbitrary dumps. -/
theorem C2_marker_count_cex :
    countMarkers cexStackTwoMarkers = 2
    ∧ (findPanics [] cexStackTwoMarkers).map List.length = some 1 :=
  ⟨by decide, by decide⟩

/-- C2 (amended): for every dump of the canonical stack shape — header
lines without the trigger prefix followed by `N ≥ 1` canonical blocks
(marker line, its runtime file line, then a frame pair that carries no
trigger prefix and is not flagged by the ignore policy) — `findPanics`
produces exactly `N` records, one per marker in scan order, whose
`Depth` fields are `0 .. N-1` in discovery order (depth 0 for the first
marker encountered top-to-bottom). -/
theorem C2_canonical_depths (pol : List Checker) (stack : Str)
    (H : List Str) (bs : List Blk)
    (hsplit : splitOnChar '\n' stack = H ++ (bs.map blkLines).flatten)
    (hH : H.all (fun l => !hasPfx pMark l) = true)
    (hbs : bs.all (blkOk pol) = true)
    (hne : bs ≠ []) :
    countMarkers stack = bs.length
    ∧ findPanics pol stack = some (assignDepths (bs.map blkRec))
    ∧ ∀ recs, findPanics pol stack = some recs →
        recs.length = bs.length
        ∧ ∀ k (hk : k < recs.length),
            (recs.get ⟨k, hk⟩).Direct.Depth = (k : Int)
            ∧ (recs.get ⟨k, hk⟩).Actual.Depth = (k : Int) := by
  have hcount : countMarkers stack = bs.length := by
    unfold countMarkers
    rw [hsplit, List.countP_append]
    have h0 : H.countP (fun l => hasPfx pMark l) = 0 :=
      List.countP_eq_zero.2 (fun l hl => by
        have hx := List.all_eq_true.1 hH l hl
        simp only [Bool.not_eq_true'] at hx
        simp [hx])
    rw [h0, countP_blkLines_flatten pol bs hbs]
    omega
  have hlen : (splitOnChar '\n' stack).length
      = 4 * bs.length + H.length := by
    rw [hsplit]
    simp only [List.length_append, blkLines_join_length]
    omega
  have hrun : findPanics pol stack = some (assignDepths (bs.map blkRec)) := by
    unfold findPanics
    have hnm : ∀ j l, 0 ≤ j → j < 0 + H.length →
        (splitOnChar '\n' stack)[j]? = some l → hasPfx pMark l = false := by
      intro j l _ hj hl
      rw [hsplit, List.getElem?_append_left (by omega)] at hl
      have hmem : l ∈ H := by
        obtain ⟨hjl, he⟩ := List.getElem?_eq_some.1 hl
        exact he ▸ List.getElem_mem hjl
      have hx := List.all_eq_true.1 hH l hmem
      simpa using hx
    have hskip := findPanicsLoop_skipSeg pol (splitOnChar '\n' stack)
      H.length (4 * bs.length) 0 [] (by omega) hnm
    have h44 : 4 * bs.length = 2 * bs.length + 2 * bs.length := by omega
    have hblocks := findPanicsLoop_blocks pol bs H [] (2 * bs.length)
      (List.all_eq_true.1 hbs)
    rw [hlen, hskip]
    simp only [Nat.zero_add]
    rw [h44, hsplit, hblocks]
    have hmapne : (bs.map blkRec).isEmpty = false := by
      simp [List.isEmpty_iff, hne]
    simp [hmapne]
  refine ⟨hcount, hrun, fun recs hrecs => ?_⟩
  rw [hrun] at hrecs
  have he := Option.some.inj hrecs
  subst he
  refine ⟨by simp [assignDepths_length], fun k hk => ?_⟩
  rw [List.get_eq_getElem, assignDepths_getElem]
  exact ⟨rfl, rfl⟩

/-- C2 (witness): the amended theorem applied to a concrete canonical
two-trigger dump. -/
theorem C2_canonical_depths_witness :
    countMarkers cexStackCanonical2 = cexBlocks2.length
    ∧ findPanics [] cexStackCanonical2
        = some (assignDepths (cexBlocks2.map blkRec))
    ∧ ∀ recs, findPanics [] cexStackCanonical2 = some recs →
        recs.length = cexBlocks2.length
        ∧ ∀ k (hk : k < recs.length),
            (recs.get ⟨k, hk⟩).Direct.Depth = (k : Int)
            ∧ (recs.get ⟨k, hk⟩).Actual.Depth = (k : Int) :=
  C2_canonical_depths [] cexStackCanonical2 ["goroutine 1 [running]:".toList]
    cexBlocks2 (by decide) (by decide) (by decide) (by decide)

/-- C3: a dump containing no trigger-marker line yields exactly the
sentinel record: both positions are `unknownLoc`, whose `File` and
`Function` are `UNKNOWN` and whose `Depth` is `-1` (the depth post-pass
is skipped on this path). -/
theorem C3_sentinel_on_no_marker (pol : List Checker) (stack : Str)
    (hnm : (splitOnChar '\n' stack).all (fun l => !hasPfx pMark l) = true) :
    findPanics pol stack = some [⟨unknownLoc, unknownLoc⟩]
    ∧ unknownLoc.File = "UNKNOWN".toList
    ∧ unknownLoc.Function = "UNKNOWN".toList
    ∧ unknownLoc.Depth = -1 := by
  refine ⟨?_, rfl, rfl, rfl⟩
  unfold findPanics
  rw [findPanicsLoop_tailNoMarker pol _ _ 0 [] (by omega)
    (fun j l _ hl => by
      have hmem : l ∈ splitOnChar '\n' stack := by
        obtain ⟨hj, he⟩ := List.getElem?_eq_some.1 hl
        exact he ▸ List.getElem_mem hj
      have hx := List.all_eq_true.1 hnm l hmem
      simpa using hx)]
  simp

/-- C3 (witness): the sentinel theorem applied to a concrete
marker-free dump. -/
theorem C3_sentinel_on_no_marker_witness :
    findPanics defaultCheckers
        "goroutine 1 [running]:\nmain.f()\n\t/a/main.go:3 +0x1".toList
      = some [⟨unknownLoc, unknownLoc⟩]
    ∧ unknownLoc.File = "UNKNOWN".toList
    ∧ unknownLoc.Function = "UNKNOWN".toList
    ∧ unknownLoc.Depth = -1 :=
  C3_sentinel_on_no_marker defaultCheckers _ (by decide)

/-- C5: when no ignore predicate matches any consecutive frame pair of
the dump (in particular when the Ignore Policy is empty), every record
produced by `findPanics` has `Actual` equal to `Direct`. -/
theorem C5_actual_eq_direct (pol : List Checker) (stack : Str)
    (recs : List PanicLoc)
    (hno : noIgnoredPair pol (splitOnChar '\n' stack) = true)
    (hrun : findPanics pol stack = some recs) :
    ∀ r ∈ recs, r.Actual = r.Direct := by
  have hpairs : ∀ j a b, (splitOnChar '\n' stack)[j]? = some a →
      (splitOnChar '\n' stack)[j + 1]? = some b → isIgnoreLoc pol a b = false := by
    intro j a b ha hb
    have hj : j < (splitOnChar '\n' stack).length := (List.getElem?_eq_some.1 ha).1
    have hx := List.all_eq_true.1 hno j (List.mem_range.2 hj)
    rw [ha, hb] at hx
    simpa using hx
  unfold findPanics at hrun
  rcases hl : findPanicsLoop pol (splitOnChar '\n' stack)
      (splitOnChar '\n' stack).length 0 none [] with _ | ⟨acc, dopt⟩
  · rw [hl] at hrun
    cases hrun
  · rw [hl] at hrun
    have hbase := findPanicsLoop_actual_eq pol (splitOnChar '\n' stack) hpairs
      (splitOnChar '\n' stack).length 0 none [] (acc, dopt)
      (fun d hd => by cases hd) (by simp) hl
    cases dopt with
    | some d =>
      have he : assignDepths (acc ++ [⟨d, d⟩]) = recs := Option.some.inj hrun
      subst he
      apply assignDepths_actual_eq
      intro r hr
      rcases List.mem_append.1 hr with h | h
      · exact hbase r h
      · simp only [List.mem_singleton] at h
        subst h
        rfl
    | none =>
      by_cases hacc : acc.isEmpty = true
      · have hrun2 : (if acc.isEmpty = true
            then some [(⟨unknownLoc, unknownLoc⟩ : PanicLoc)]
            else some (assignDepths acc)) = some recs := hrun
        rw [if_pos hacc] at hrun2
        have he : [(⟨unknownLoc, unknownLoc⟩ : PanicLoc)] = recs :=
          Option.some.inj hrun2
        subst he
        intro r hr
        simp only [List.mem_singleton] at hr
        subst hr
        rfl
      · have hrun2 : (if acc.isEmpty = true
            then some [(⟨unknownLoc, unknownLoc⟩ : PanicLoc)]
            else some (assignDepths acc)) = some recs := hrun
        rw [if_neg hacc] at hrun2
        have he : assignDepths acc = recs := Option.some.inj hrun2
        subst he
        exact assignDepths_actual_eq acc hbase

/-- C5 (witness): the theorem applied to a concrete one-trigger dump
with the empty ignore policy. -/
theorem C5_actual_eq_direct_witness :
    cexRecOne.Actual = cexRecOne.Direct :=
  C5_actual_eq_direct [] cexStackOne [cexRecOne] (by decide) (by decide)
    cexRecOne (by decide)

/-- C9: in a dump with one trigger marker whose direct frame pair is
flagged by the ignore policy while the following frame pair is not, the
single record has `Direct` parsed from the noise frame (so
`Direct.Function` is the noise frame's function), `Actual` parsed from
the following clean frame (so `Actual.Function` is the non-noise frame's
function), and both positions at depth 0. -/
theorem C9_noise_skipped (pol : List Checker) (stack : Str)
    (H T : List Str) (m p f1 g1 f2 g2 : Str)
    (hsplit : splitOnChar '\n' stack = H ++ [m, p, f1, g1, f2, g2] ++ T)
    (hH : H.all (fun l => !hasPfx pMark l) = true)
    (hT : T.all (fun l => !hasPfx pMark l) = true)
    (hm : hasPfx pMark m = true)
    (hign1 : isIgnoreLoc pol f1 g1 = true)
    (hign2 : isIgnoreLoc pol f2 g2 = false) :
    findPanics pol stack
      = some [⟨{ parseLocation f1 g1 with Depth := 0 },
              { parseLocation f2 g2 with Depth := 0 }⟩] := by
  have hlen : (splitOnChar '\n' stack).length = (6 + T.length) + H.length := by
    rw [hsplit]
    simp
    omega
  have hB : ∀ (t : Nat) (x : Str), ([m, p, f1, g1, f2, g2] : List Str)[t]? = some x →
      (splitOnChar '\n' stack)[H.length + t]? = some x := by
    intro t x hx
    have ht : t < 6 := by
      have := (List.getElem?_eq_some.1 hx).1
      simpa using this
    rw [hsplit, List.getElem?_append_left (by simp; omega),
      List.getElem?_append_right (by omega)]
    simpa using hx
  have hm0 : (splitOnChar '\n' stack)[H.length]? = some m := by
    have := hB 0 m (by simp)
    simpa using this
  have hm2 : (splitOnChar '\n' stack)[H.length + 2]? = some f1 := hB 2 f1 (by simp)
  have hm3 : (splitOnChar '\n' stack)[H.length + 3]? = some g1 := hB 3 g1 (by simp)
  have hm4 : (splitOnChar '\n' stack)[H.length + 4]? = some f2 := hB 4 f2 (by simp)
  have hm5 : (splitOnChar '\n' stack)[H.length + 5]? = some g2 := hB 5 g2 (by simp)
  have hnmH : ∀ j l, 0 ≤ j → j < 0 + H.length →
      (splitOnChar '\n' stack)[j]? = some l → hasPfx pMark l = false := by
    intro j l _ hj hl
    rw [hsplit] at hl
    rw [List.getElem?_append_left (by simp; omega)] at hl
    rw [List.getElem?_append_left (by omega)] at hl
    have hmem : l ∈ H := by
      obtain ⟨hjl, he⟩ := List.getElem?_eq_some.1 hl
      exact he ▸ List.getElem_mem hjl
    have hx := List.all_eq_true.1 hH l hmem
    simpa using hx
  have hnmT : ∀ j l, H.length + 6 ≤ j →
      (splitOnChar '\n' stack)[j]? = some l → hasPfx pMark l = false := by
    intro j l hj hl
    rw [hsplit] at hl
    rw [List.getElem?_append_right (by simp; omega)] at hl
    have hmem : l ∈ T := by
      obtain ⟨hjl, he⟩ := List.getElem?_eq_some.1 hl
      exact he ▸ List.getElem_mem hjl
    have hx := List.all_eq_true.1 hT l hmem
    simpa using hx
  unfold findPanics
  rw [hlen,
    findPanicsLoop_skipSeg pol _ H.length (6 + T.length) 0 [] (by omega) hnmH]
  simp only [Nat.zero_add]
  have h63 : 6 + T.length = (3 + T.length) + 3 := by omega
  rw [h63,
    findPanicsLoop_blockIgn pol _ (3 + T.length) H.length [] m f1 g1 f2 g2
      hm0 hm hm2 hm3 hm4 hm5 hign1 hign2,
    findPanicsLoop_tailNoMarker pol _ (3 + T.length) (H.length + 6) _
      (by omega) (fun j l hj hl => hnmT j l hj hl)]
  simp [assignDepths]

/-- C9 (witness): the theorem applied to the `fmt.Fprintf` scenario with
the default ignore policy, whose list contains the `/src/fmt/` noise
fragment matched by the direct frame's file line. -/
theorem C9_noise_skipped_witness :
    findPanics defaultCheckers cexStackFmt
      = some [⟨{ parseLocation "fmt.Fprintf(0x0, 0x1)".toList
                   "\t/go/src/fmt/print.go:225 +0x58".toList with Depth := 0 },
              { parseLocation "main.main()".toList
                   "\t/a/main.go:12 +0x74".toList with Depth := 0 }⟩] :=
  C9_noise_skipped defaultCheckers cexStackFmt
    ["goroutine 1 [running]:".toList, "main.recoverSimple()".toList,
     "\t/a/main.go:19".toList] []
    "panic(0x1, 0x2)".toList "\t/go/src/runtime/panic.go:770 +0x124".toList
    "fmt.Fprintf(0x0, 0x1)".toList
    "\t/go/src/fmt/print.go:225 +0x58".toList
    "main.main()".toList "\t/a/main.go:12 +0x74".toList
    (by decide) (by decide) (by decide) (by decide) (by decide) (by decide)

/-- C4 (counterexample): `parseLocation` stores the whitespace-trimmed
file line in `FileLine` rather than the verbatim input, and keeps the
whole function line when `(` occurs at index 0 (the source requires
`idx > 0`), where the claim's "substring before its first `(`" is the
empty string. -/
theorem C4_parse_cex :
    (parseLocation "(foo".toList "  /a.go:12 +0x1".toList).FileLine
        = "/a.go:12 +0x1".toList
    ∧ (parseLocation "(foo".toList "  /a.go:12 +0x1".toList).FileLine
        ≠ "  /a.go:12 +0x1".toList
    ∧ (parseLocation "(foo".toList "  /a.go:12 +0x1".toList).Function
        = "(foo".toList
    ∧ (parseLocation "(foo".toList "  /a.go:12 +0x1".toList).Function ≠ [] :=
  ⟨by decide, by decide, by decide, by decide⟩

/-- C4 (amended): for every (function line, file line) pair,
`parseLocation` returns, without ever failing: `Function` = the part of
the function line before its first `(` when that occurs at a positive
index (the whole line when `(` is absent or at index 0); `File` and
`Line` obtained from the whitespace-trimmed file line by splitting at
its first `:` and then at the first space, with `Line = -1` on any parse
failure (including a missing `:`); `FuncLine` = the function line
verbatim; and `FileLine` = the whitespace-trimmed file line. -/
theorem C4_parseLocation_charac (fn fl : Str) :
    parseLocation fn fl
      = { FuncLine := fn, FileLine := trimSpace fl, File := specFileOf fl,
          Line := specLineOf fl, Function := specFuncName fn, Depth := 0 } := by
  have hfunc : (match goIndexOf '(' fn with
      | some idx => if idx > 0 then fn.take idx else fn
      | none => fn) = specFuncName fn := by
    cases hidx : goIndexOf '(' fn with
    | none => simp [specFuncName, hidx]
    | some idx =>
      cases idx with
      | zero => simp [specFuncName, hidx]
      | succ k => simp [specFuncName, hidx]
  by_cases hc : (trimSpace fl).contains ':' = true
  · simp only [parseLocation, splitFirst_eq, hc, if_true, specFileOf,
      specLineOf, hfunc, List.drop_one]
  · have hc' : (trimSpace fl).contains ':' = false := by
      simpa using hc
    have hmem : ':' ∉ trimSpace fl := by
      simpa using hc'
    have hself : (trimSpace fl).takeWhile (fun x => x ≠ ':') = trimSpace fl :=
      List.takeWhile_eq_self_iff.2 (fun x hx => by
        simp only [ne_eq, decide_eq_true_eq]
        intro he
        exact hmem (he ▸ hx))
    simp only [parseLocation, splitFirst_eq, hc', Bool.false_eq_true, if_false,
      specFileOf, specLineOf, hfunc, hself]

/-- C6 (counterexample): with both a watch and an `onPanic` callback
set and a panic in flight, the trace produced by `postRecover` invokes
the watch first (panics.go lines 59–67): the claimed
onPanic-before-watch order fails on the code. -/
theorem C6_order_cex :
    postRecover [] cexActionWatchPanic true cexStackOne
      = some ([Ev.watchEv false cexRecOne, Ev.onPanicEv cexRecOne], false)
    ∧ precededByOnPanic
        [Ev.watchEv false cexRecOne, Ev.onPanicEv cexRecOne] = false :=
  ⟨by decide, by decide⟩

/-- C6 (amended): with a panic in flight, the attribution records are
processed in the order returned by the walker (depth order), and for
each record the Configuration's watch callback is invoked first and the
action's `onPanic` callback second, under both effective safe-mode
values (the action's effective safe mode is left arbitrary). -/
theorem C6_watch_then_onPanic (ρ : Str) (a : ActionM) (stack : Str)
    (recs : List PanicLoc)
    (hw : a.cfg.watch = some false)
    (hp : a.onPanic = .fn false)
    (ha : a.always = .nilPtr ∨ a.always = .fn false)
    (hfp : findPanics a.cfg.checkers stack = some recs) :
    postRecover ρ a true stack
      = some (recs.flatMap (fun r => [Ev.watchEv false r, Ev.onPanicEv r])
              ++ benignTr a.always Ev.alwaysEv, false) := by
  unfold postRecover
  rw [show (2 : Nat) = 1 + 1 from rfl,
    postRecoverF_benign_pe 1 ρ false a stack recs (Or.inr hw)
      (Or.inr (Or.inr hp)) ha hfp]
  have hfn : benignRecTr a false
      = fun r => [Ev.watchEv false r, Ev.onPanicEv r] := by
    funext r
    simp [benignRecTr, benignTr, hw, hp]
  rw [hfn]

/-- C6 (witness): the amended theorem at a concrete safe-mode action
and one-trigger dump. -/
theorem C6_watch_then_onPanic_witness :
    postRecover [] { cexActionWatchPanic with safeOv := some true } true
        cexStackOne
      = some ([cexRecOne].flatMap
                (fun r => [Ev.watchEv false r, Ev.onPanicEv r])
              ++ benignTr CB.nilPtr Ev.alwaysEv, false) :=
  C6_watch_then_onPanic [] { cexActionWatchPanic with safeOv := some true }
    cexStackOne [cexRecOne] rfl rfl (Or.inl rfl) (by decide)

/-- C7: with benign callbacks, a capture with no panic in flight runs
`onSucceed` (when set) and then `always` (when set) as the last step,
never invokes the watch or `onPanic` and produces no record events; with
a panic in flight, `onSucceed` is skipped while `always` still runs as
the last step. -/
theorem C7_success_always_paths (ρ : Str) (a : ActionM) (stack : Str)
    (recs : List PanicLoc) (hb : benignAll a)
    (hfp : findPanics a.cfg.checkers stack = some recs) :
    (postRecover ρ a false stack
       = some (benignTr a.onSucceed Ev.onSucceedEv
               ++ benignTr a.always Ev.alwaysEv, false))
    ∧ (∀ tr pr, postRecover ρ a false stack = some (tr, pr) →
        (∀ fb r, Ev.watchEv fb r ∉ tr) ∧ (∀ r, Ev.onPanicEv r ∉ tr))
    ∧ (postRecover ρ a true stack
       = some (recs.flatMap (benignRecTr a false)
               ++ benignTr a.always Ev.alwaysEv, false))
    ∧ (∀ tr pr, postRecover ρ a true stack = some (tr, pr) →
        Ev.onSucceedEv ∉ tr) := by
  obtain ⟨hw, hp, hs, ha⟩ := hb
  have h1 : postRecover ρ a false stack
      = some (benignTr a.onSucceed Ev.onSucceedEv
              ++ benignTr a.always Ev.alwaysEv, false) := by
    unfold postRecover
    rw [show (2 : Nat) = 1 + 1 from rfl,
      postRecoverF_benign_nope 1 ρ false a stack hs ha]
  have h3 : postRecover ρ a true stack
      = some (recs.flatMap (benignRecTr a false)
              ++ benignTr a.always Ev.alwaysEv, false) := by
    unfold postRecover
    rw [show (2 : Nat) = 1 + 1 from rfl,
      postRecoverF_benign_pe 1 ρ false a stack recs hw hp ha hfp]
  refine ⟨h1, ?_, h3, ?_⟩
  · intro tr pr htr
    rw [h1] at htr
    have he := Option.some.inj htr
    have htr2 : benignTr a.onSucceed Ev.onSucceedEv
        ++ benignTr a.always Ev.alwaysEv = tr := congrArg Prod.fst he
    subst htr2
    constructor
    · intro fb r
      rcases hs with hs | hs <;> rcases ha with ha | ha <;>
        simp [benignTr, hs, ha]
    · intro r
      rcases hs with hs | hs <;> rcases ha with ha | ha <;>
        simp [benignTr, hs, ha]
  · intro tr pr htr
    rw [h3] at htr
    have he := Option.some.inj htr
    have htr2 : recs.flatMap (benignRecTr a false)
        ++ benignTr a.always Ev.alwaysEv = tr := congrArg Prod.fst he
    subst htr2
    intro hin
    rcases List.mem_append.1 hin with hin | hin
    · obtain ⟨r, _, hr⟩ := List.mem_flatMap.1 hin
      rcases hw with hw | hw <;> rcases hp with hp | hp | hp <;>
        simp [benignRecTr, benignTr, hw, hp] at hr
    · rcases ha with ha | ha <;> simp [benignTr, ha] at hin

/-- C7 (witness): the theorem at a concrete action carrying all three
callbacks and a real watch, against a one-trigger dump. -/
theorem C7_success_always_paths_witness :
    (postRecover [] cexActionFull false cexStackOne
       = some (benignTr cexActionFull.onSucceed Ev.onSucceedEv
               ++ benignTr cexActionFull.always Ev.alwaysEv, false))
    ∧ (∀ tr pr, postRecover [] cexActionFull false cexStackOne = some (tr, pr) →
        (∀ fb r, Ev.watchEv fb r ∉ tr) ∧ (∀ r, Ev.onPanicEv r ∉ tr))
    ∧ (postRecover [] cexActionFull true cexStackOne
       = some ([cexRecOne].flatMap (benignRecTr cexActionFull false)
               ++ benignTr cexActionFull.always Ev.alwaysEv, false))
    ∧ (∀ tr pr, postRecover [] cexActionFull true cexStackOne = some (tr, pr) →
        Ev.onSucceedEv ∉ tr) :=
  C7_success_always_paths [] cexActionFull cexStackOne [cexRecOne]
    ⟨Or.inr rfl, Or.inr (Or.inr rfl), Or.inr rfl, Or.inr rfl⟩ (by decide)

/-- C8: under effective safe mode, every safe-wrapped callback that
panics is caught by one nested fallback capture running with the fixed
fallback action — whose own effective safe flag is false — so no panic
propagates to the caller; increasing the fuel beyond the one nesting
level never changes the outcome (the fallback layer cannot recurse into
another safe-wrapped layer), and the trace equation exhibits exactly one
fallback-capture trace (`fbTrace`) per panicking callback invocation. -/
theorem C8_safe_second_panic_contained (n : Nat) (ρ : Str) (a : ActionM)
    (pe : Bool) (stack : Str) (recsO fbrecs : List PanicLoc)
    (hsafe : needRunFallbackSafe a = true)
    (hfp : findPanics a.cfg.checkers stack = some recsO)
    (hfb : findPanics defaultCheckers ρ = some fbrecs) :
    needRunFallbackSafe fallbackActionM = false
    ∧ postRecoverF (n + 2) ρ false a pe stack = postRecover ρ a pe stack
    ∧ postRecover ρ a pe stack
        = some ((if pe then recsO.flatMap (safeRecTr a false (fbTrace fbrecs))
                 else safeCBTrU a.onSucceed Ev.onSucceedEv (fbTrace fbrecs))
                ++ safeCBTrU a.always Ev.alwaysEv (fbTrace fbrecs), false)
    ∧ ∀ tr pr, postRecover ρ a pe stack = some (tr, pr) → pr = false := by
  have hn := postRecoverF_safe n ρ a pe stack recsO fbrecs hsafe hfp hfb
  have h0 := postRecoverF_safe 0 ρ a pe stack recsO fbrecs hsafe hfp hfb
  have hpost : postRecover ρ a pe stack
      = some ((if pe then recsO.flatMap (safeRecTr a false (fbTrace fbrecs))
               else safeCBTrU a.onSucceed Ev.onSucceedEv (fbTrace fbrecs))
              ++ safeCBTrU a.always Ev.alwaysEv (fbTrace fbrecs), false) := by
    unfold postRecover
    rw [show (2 : Nat) = 0 + 2 from rfl, h0]
  refine ⟨rfl, ?_, hpost, ?_⟩
  · rw [hn, hpost]
  · intro tr pr htr
    rw [hpost] at htr
    have he := Option.some.inj htr
    exact (congrArg Prod.snd he).symm

/-- C8 (witness): a safe-mode action whose `always` callback panics:
the capture completes without propagation, the trace showing the single
nested fallback capture. -/
theorem C8_safe_second_panic_contained_witness :
    needRunFallbackSafe fallbackActionM = false
    ∧ postRecoverF (5 + 2) [] false cexActionSafePanicking false cexStackOne
        = postRecover [] cexActionSafePanicking false cexStackOne
    ∧ postRecover [] cexActionSafePanicking false cexStackOne
        = some ((if false then
                   [cexRecOne].flatMap
                     (safeRecTr cexActionSafePanicking false
                       (fbTrace [⟨unknownLoc, unknownLoc⟩]))
                 else safeCBTrU cexActionSafePanicking.onSucceed
                   Ev.onSucceedEv (fbTrace [⟨unknownLoc, unknownLoc⟩]))
                ++ safeCBTrU cexActionSafePanicking.always Ev.alwaysEv
                    (fbTrace [⟨unknownLoc, unknownLoc⟩]), false)
    ∧ ∀ tr pr, postRecover [] cexActionSafePanicking false cexStackOne
        = some (tr, pr) → pr = false :=
  C8_safe_second_panic_contained 5 [] cexActionSafePanicking false cexStackOne
    [cexRecOne] [⟨unknownLoc, unknownLoc⟩] rfl (by decide) (by decide)

/-- Every event of a fallback-capture trace is a fallback watch
invocation. -/
theorem fbTrace_mem (l : List PanicLoc) (e : Ev) (he : e ∈ fbTrace l) :
    ∃ r, e = Ev.watchEv true r := by
  obtain ⟨r, _, hr⟩ := List.mem_flatMap.1 he
  simp only [List.mem_singleton] at hr
  exact ⟨r, hr⟩

/-- C10: an action whose callback slots are all nil — either nil
pointers (from `Panic(nil)`-style builder calls) or pointers to nil
function values (from `PanicStatic(nil)`-style calls) — completes every
capture without a panic propagating, with or without a panic in flight
and under either effective safe-mode value, and no user callback is ever
invoked. -/
theorem C10_nil_callbacks_accepted (ρ : Str) (a : ActionM) (pe : Bool)
    (stack : Str) (recsO fbrecs : List PanicLoc)
    (hp : a.onPanic = .nilPtr ∨ a.onPanic = .nilFunc)
    (hs : a.onSucceed = .nilPtr ∨ a.onSucceed = .nilFunc)
    (ha : a.always = .nilPtr ∨ a.always = .nilFunc)
    (hw : a.cfg.watch = none ∨ a.cfg.watch = some false)
    (hfp : findPanics a.cfg.checkers stack = some recsO)
    (hfb : findPanics defaultCheckers ρ = some fbrecs) :
    ∃ tr, postRecover ρ a pe stack = some (tr, false)
      ∧ (∀ r, Ev.onPanicEv r ∉ tr)
      ∧ Ev.onSucceedEv ∉ tr
      ∧ Ev.alwaysEv ∉ tr := by
  cases hsafe : needRunFallbackSafe a
  case false =>
    have h := postRecoverF_nonsafe 1 ρ false a pe stack recsO hsafe hw
      (hp.elim Or.inl (fun h => Or.inr (Or.inl h)))
      (hs.elim Or.inl (fun h => Or.inr (Or.inl h)))
      (ha.elim Or.inl (fun h => Or.inr (Or.inl h))) hfp
    refine ⟨_, h, ?_, ?_, ?_⟩
    · intro r hin
      rcases List.mem_append.1 hin with hin | hin
      · cases pe <;> simp only [if_true, Bool.false_eq_true, if_false] at hin
        · rcases hs with hs | hs <;> simp [benignTr, hs] at hin
        · obtain ⟨r', _, hr⟩ := List.mem_flatMap.1 hin
          rcases hw with hw | hw <;> rcases hp with hp | hp <;>
            simp [benignRecTr, benignTr, hw, hp] at hr
      · rcases ha with ha | ha <;> simp [benignTr, ha] at hin
    · intro hin
      rcases List.mem_append.1 hin with hin | hin
      · cases pe <;> simp only [if_true, Bool.false_eq_true, if_false] at hin
        · rcases hs with hs | hs <;> simp [benignTr, hs] at hin
        · obtain ⟨r', _, hr⟩ := List.mem_flatMap.1 hin
          rcases hw with hw | hw <;> rcases hp with hp | hp <;>
            simp [benignRecTr, benignTr, hw, hp] at hr
      · rcases ha with ha | ha <;> simp [benignTr, ha] at hin
    · intro hin
      rcases List.mem_append.1 hin with hin | hin
      · cases pe <;> simp only [if_true, Bool.false_eq_true, if_false] at hin
        · rcases hs with hs | hs <;> simp [benignTr, hs] at hin
        · obtain ⟨r', _, hr⟩ := List.mem_flatMap.1 hin
          rcases hw with hw | hw <;> rcases hp with hp | hp <;>
            simp [benignRecTr, benignTr, hw, hp] at hr
      · rcases ha with ha | ha <;> simp [benignTr, ha] at hin
  case true =>
    have h := postRecoverF_safe 0 ρ a pe stack recsO fbrecs hsafe hfp hfb
    have hpost : postRecover ρ a pe stack
        = some ((if pe then recsO.flatMap (safeRecTr a false (fbTrace fbrecs))
                 else safeCBTrU a.onSucceed Ev.onSucceedEv (fbTrace fbrecs))
                ++ safeCBTrU a.always Ev.alwaysEv (fbTrace fbrecs), false) := by
      unfold postRecover
      rw [show (2 : Nat) = 0 + 2 from rfl, h]
    have hnotu : ∀ (cb : CB) (e e' : Ev), cb = .nilPtr ∨ cb = .nilFunc →
        e' ∈ safeCBTrU cb e (fbTrace fbrecs) → ∃ r, e' = Ev.watchEv true r := by
      intro cb e e' hcb hin
      rcases hcb with hcb | hcb
      · subst hcb
        simp [safeCBTrU] at hin
      · subst hcb
        exact fbTrace_mem fbrecs e' hin
    have hrec : ∀ r e', e' ∈ safeRecTr a false (fbTrace fbrecs) r →
        (∃ r', e' = Ev.watchEv true r') ∨ (∃ r', e' = Ev.watchEv false r') := by
      intro r e' hin
      rcases List.mem_append.1 hin with hin | hin
      · rcases hw with hw | hw <;>
          simp only [safeCBTr, watchAsCB, hw] at hin
        · simp at hin
        · rw [if_neg (by simp)] at hin
          simp only [List.mem_singleton] at hin
          exact Or.inr ⟨r, hin⟩
      · rcases hp with hp | hp <;> simp [safeCBTr, hp] at hin
    have hmain : ∀ e', e' ∈ (if pe then
          recsO.flatMap (safeRecTr a false (fbTrace fbrecs))
        else safeCBTrU a.onSucceed Ev.onSucceedEv (fbTrace fbrecs))
        ++ safeCBTrU a.always Ev.alwaysEv (fbTrace fbrecs) →
        (∃ r', e' = Ev.watchEv true r') ∨ (∃ r', e' = Ev.watchEv false r') := by
      intro e' hin
      rcases List.mem_append.1 hin with hin | hin
      · cases pe <;> simp only [if_true, Bool.false_eq_true, if_false] at hin
        · exact Or.inl (hnotu a.onSucceed Ev.onSucceedEv e' hs hin)
        · obtain ⟨r', _, hr⟩ := List.mem_flatMap.1 hin
          exact hrec r' e' hr
      · exact Or.inl (hnotu a.always Ev.alwaysEv e' ha hin)
    refine ⟨_, hpost, ?_, ?_, ?_⟩
    · intro r hin
      rcases hmain _ hin with ⟨r', hr⟩ | ⟨r', hr⟩ <;> cases hr
    · intro hin
      rcases hmain _ hin with ⟨r', hr⟩ | ⟨r', hr⟩ <;> cases hr
    · intro hin
      rcases hmain _ hin with ⟨r', hr⟩ | ⟨r', hr⟩ <;> cases hr

/-- C10 (witness): a safe-mode action with all callback slots nil
(mixing nil pointers and pointers to nil functions), with a panic in
flight. -/
theorem C10_nil_callbacks_accepted_witness :
    ∃ tr, postRecover [] cexActionAllNil true cexStackOne = some (tr, false)
      ∧ (∀ r, Ev.onPanicEv r ∉ tr)
      ∧ Ev.onSucceedEv ∉ tr
      ∧ Ev.alwaysEv ∉ tr :=
  C10_nil_callbacks_accepted [] cexActionAllNil true cexStackOne
    [cexRecOne] [⟨unknownLoc, unknownLoc⟩] (Or.inl rfl) (Or.inr rfl)
    (Or.inr rfl) (Or.inr rfl) (by decide) (by decide)

end Panics
